import Mathlib

/-!
Verification of the Ramsey-interferometry phase-estimation logic of the
quantum-education-modules repository.

The notebook `Modules/Applications/Quantum Sensing/RamseyInterferometry.ipynb`
post-processes measurement counts with three lines of Python:

  probability1 = 0 if '1' not in counts else counts['1']/shots
  phase = math.acos((probability1*2-1)*-1)
  phaseError = abs(phase - phaseAmount)

and derives (in the accompanying markdown) the forward model
P[one] = (1 - cos theta)/2.  We embed these operations shallowly:
rational arithmetic stands for the exact values Python computes,
`Real.arccos` for `math.acos`, and an `Except` result records the
exceptions Python raises (ZeroDivisionError when shots = 0, ValueError
"math domain error" when the acos argument leaves [-1, 1]).
-/

open Real Filter

/-- Exceptions the Python runtime raises in the estimation pipeline. -/
inductive PyError where
  /-- raised by `counts['1']/shots` when shots = 0 -/
  | zeroDivisionError : PyError
  /-- raised by `math.acos` on an argument outside [-1, 1] -/
  | valueError : PyError
deriving DecidableEq

/-- Source line 368: `probability0 = 0 if '0' not in counts else counts['0']/shots`. -/
def probability0 (counts : List (String × Nat)) (shots : Nat) : Except PyError ℚ :=
  match counts.lookup "0" with
  | none => .ok 0
  | some c => if shots = 0 then .error .zeroDivisionError else .ok ((c : ℚ) / (shots : ℚ))

/-- Source line 369: `probability1 = 0 if '1' not in counts else counts['1']/shots`. -/
def probability1 (counts : List (String × Nat)) (shots : Nat) : Except PyError ℚ :=
  match counts.lookup "1" with
  | none => .ok 0
  | some c => if shots = 0 then .error .zeroDivisionError else .ok ((c : ℚ) / (shots : ℚ))

/-- Model of `math.acos`: raises ValueError outside [-1, 1], otherwise the
principal arccosine. -/
noncomputable def acosPy (x : ℚ) : Except PyError ℝ :=
  if x < -1 ∨ 1 < x then .error .valueError else .ok (Real.arccos (x : ℝ))

/-- Source line 411: `phase = math.acos((probability1*2-1)*-1)`, as a function of
the empirical probability of outcome one. -/
noncomputable def phase (p : ℚ) : Except PyError ℝ :=
  acosPy ((p * 2 - 1) * (-1))

/-- The estimator of the spec: form the empirical probability
countOne/shots exactly as `counts['1']/shots` does (raising on shots = 0) and
feed it to source line 411. -/
noncomputable def estimatePhase (countOne shots : ℤ) : Except PyError ℝ :=
  if shots = 0 then .error .zeroDivisionError
  else phase ((countOne : ℚ) / (shots : ℚ))

/-- The numeric value produced by source line 411 when no exception occurs. -/
noncomputable def phaseVal (countOne shots : ℤ) : ℝ :=
  Real.arccos (((((countOne : ℚ) / (shots : ℚ)) * 2 - 1) * (-1) : ℚ) : ℝ)

/-- Source line 417: `phaseError = abs(phase - phaseAmount)`. -/
def phaseError (estimated actual : ℝ) : ℝ :=
  |estimated - actual|

/-- Forward model derived at source lines 334-336:
`P[one] = |sin(theta/2)|^2 = (1 - cos(theta))/2`. -/
noncomputable def predictedProbabilityOfOne (theta : ℝ) : ℝ :=
  (1 - Real.cos theta) / 2

/-- A sequence of estimator calls, modelling repeated runs: each call sees only
its own tally, never state left by earlier calls. -/
noncomputable def runCalls (calls : List (ℤ × ℤ)) : List (Except PyError ℝ) :=
  calls.map (fun t => estimatePhase t.1 t.2)

/- ### Helper lemmas -/

lemma acosArg_cast (c s : ℤ) :
    (((((c : ℚ) / (s : ℚ)) * 2 - 1) * (-1) : ℚ) : ℝ)
      = 1 - 2 * ((c : ℝ) / (s : ℝ)) := by
  push_cast
  ring

lemma phaseVal_eq (c s : ℤ) :
    phaseVal c s = Real.arccos (1 - 2 * ((c : ℝ) / (s : ℝ))) := by
  rw [phaseVal, acosArg_cast]

lemma estimatePhase_ok (c s : ℤ) (hs : 1 ≤ s) (h0 : 0 ≤ c) (hle : c ≤ s) :
    estimatePhase c s = Except.ok (phaseVal c s) := by
  have hs0 : (0 : ℚ) < (s : ℚ) := by exact_mod_cast hs
  have hsne : s ≠ 0 := by omega
  have hp0 : (0 : ℚ) ≤ (c : ℚ) / (s : ℚ) := by
    apply div_nonneg _ hs0.le
    exact_mod_cast h0
  have hp1 : (c : ℚ) / (s : ℚ) ≤ 1 := by
    rw [div_le_one hs0]
    exact_mod_cast hle
  rw [estimatePhase, if_neg hsne, phase, acosPy, if_neg, phaseVal]
  push_neg
  constructor <;> nlinarith

lemma estimatePhase_isOk_iff (c s : ℤ) (hs : 1 ≤ s) :
    (estimatePhase c s).isOk = false ↔ (c < 0 ∨ s < c) := by
  have hs0 : (0 : ℚ) < (s : ℚ) := by exact_mod_cast hs
  have hsne : s ≠ 0 := by omega
  rw [estimatePhase, if_neg hsne, phase, acosPy]
  by_cases h : ((c : ℚ) / (s : ℚ) * 2 - 1) * (-1) < -1 ∨ 1 < ((c : ℚ) / (s : ℚ) * 2 - 1) * (-1)
  · rw [if_pos h]
    simp only [Except.isOk, Except.toBool, true_iff]
    rcases h with h | h
    · right
      have : 1 < (c : ℚ) / (s : ℚ) := by nlinarith
      rw [lt_div_iff₀ hs0, one_mul] at this
      exact_mod_cast this
    · left
      have : (c : ℚ) / (s : ℚ) < 0 := by nlinarith
      have := (div_neg_iff.mp this)
      rcases this with ⟨_, h2⟩ | ⟨h1, _⟩
      · exact absurd h2 (not_lt.mpr hs0.le)
      · exact_mod_cast h1
  · rw [if_neg h]
    push_neg at h
    obtain ⟨h1, h2⟩ := h
    have hp0 : (0 : ℚ) ≤ (c : ℚ) / (s : ℚ) := by nlinarith
    have hp1 : (c : ℚ) / (s : ℚ) ≤ 1 := by nlinarith
    have hc0 : 0 ≤ c := by
      rw [div_nonneg_iff] at hp0
      rcases hp0 with ⟨h3, _⟩ | ⟨_, h3⟩
      · exact_mod_cast h3
      · exact absurd h3 (not_le.mpr hs0)
    have hcs : c ≤ s := by
      rw [div_le_one hs0] at hp1
      exact_mod_cast hp1
    have hnot : ¬(c < 0 ∨ s < c) := by omega
    simp [Except.isOk, Except.toBool, hnot]

/- ### Claim theorems -/

/-- C1: for every tally with shots >= 1, 0 <= countOne <= shots, the estimator
returns arccos(1 - 2*(countOne/shots)), and this value lies in [0, pi]. -/
theorem estimatePhase_valid_formula_and_range (countOne shots : ℤ)
    (hs : 1 ≤ shots) (h0 : 0 ≤ countOne) (hle : countOne ≤ shots) :
    ∃ θ, estimatePhase countOne shots = Except.ok θ ∧
      θ = Real.arccos (1 - 2 * ((countOne : ℝ) / (shots : ℝ))) ∧
      0 ≤ θ ∧ θ ≤ π := by
  refine ⟨phaseVal countOne shots, estimatePhase_ok _ _ hs h0 hle, phaseVal_eq _ _, ?_, ?_⟩
  · rw [phaseVal_eq]
    exact Real.arccos_nonneg _
  · rw [phaseVal_eq]
    exact Real.arccos_le_pi _

/-- Witness for C1 at countOne = 1, shots = 2. -/
theorem estimatePhase_valid_formula_and_range_witness :
    (1 : ℤ) ≤ 2 ∧ (0 : ℤ) ≤ 1 ∧ (1 : ℤ) ≤ 2 ∧
    ∃ θ, estimatePhase 1 2 = Except.ok θ ∧
      θ = Real.arccos (1 - 2 * (((1 : ℤ) : ℝ) / ((2 : ℤ) : ℝ))) ∧
      0 ≤ θ ∧ θ ≤ π :=
  ⟨by norm_num, by norm_num, by norm_num,
    estimatePhase_valid_formula_and_range 1 2 (by norm_num) (by norm_num) (by norm_num)⟩

/-- C2 counterexample: the tally (countOne, shots) = (-5, -10) is malformed
(shots <= 0 and countOne < 0), yet the code returns the numeric estimate pi/2
instead of failing. -/
theorem estimatePhase_malformed_tally_succeeds :
    ((-5 : ℤ) < 0) ∧ ((-10 : ℤ) ≤ 0) ∧
    estimatePhase (-5) (-10) = Except.ok (π / 2) := by
  refine ⟨by norm_num, by norm_num, ?_⟩
  have h1 : ((((-5 : ℤ) : ℚ) / ((-10 : ℤ) : ℚ)) * 2 - 1) * (-1) = 0 := by norm_num
  rw [estimatePhase, if_neg (by norm_num), phase, h1, acosPy, if_neg (by norm_num)]
  norm_num [Real.arccos_zero]

/-- C2 (amended): for shots >= 1 the estimator fails exactly when the tally is
malformed (countOne < 0 or countOne > shots); every call with shots = 0 fails;
and estimatePhase(-1, 100), estimatePhase(150, 100), estimatePhase(5, 0) each
fail.  (For negative shots the code can return a numeric value.) -/
theorem estimatePhase_fail_iff_amended (countOne shots : ℤ) (hs : 1 ≤ shots) :
    ((estimatePhase countOne shots).isOk = false ↔ (countOne < 0 ∨ shots < countOne)) ∧
    (∀ c : ℤ, (estimatePhase c 0).isOk = false) ∧
    (estimatePhase (-1) 100).isOk = false ∧
    (estimatePhase 150 100).isOk = false ∧
    (estimatePhase 5 0).isOk = false := by
  refine ⟨estimatePhase_isOk_iff _ _ hs, ?_, ?_, ?_, ?_⟩
  · intro c
    rw [estimatePhase, if_pos rfl]
    rfl
  · exact (estimatePhase_isOk_iff (-1) 100 (by norm_num)).mpr (by norm_num)
  · exact (estimatePhase_isOk_iff 150 100 (by norm_num)).mpr (by norm_num)
  · rw [estimatePhase, if_pos rfl]
    rfl

/-- Witness for the amended C2 at countOne = 0, shots = 1. -/
theorem estimatePhase_fail_iff_amended_witness :
    (1 : ℤ) ≤ 1 ∧
    (((estimatePhase 0 1).isOk = false ↔ ((0 : ℤ) < 0 ∨ (1 : ℤ) < 0)) ∧
     (∀ c : ℤ, (estimatePhase c 0).isOk = false) ∧
     (estimatePhase (-1) 100).isOk = false ∧
     (estimatePhase 150 100).isOk = false ∧
     (estimatePhase 5 0).isOk = false) :=
  ⟨le_refl 1, estimatePhase_fail_iff_amended 0 1 (le_refl 1)⟩

/-- C3: the forward model is total on all real theta, equals (1 - cos theta)/2,
and always lies in [0, 1]. -/
theorem predictedProbabilityOfOne_total_range (theta : ℝ) :
    predictedProbabilityOfOne theta = (1 - Real.cos theta) / 2 ∧
    0 ≤ predictedProbabilityOfOne theta ∧ predictedProbabilityOfOne theta ≤ 1 := by
  refine ⟨rfl, ?_, ?_⟩
  · have h := Real.cos_le_one theta
    rw [predictedProbabilityOfOne]
    linarith
  · have h := Real.neg_one_le_cos theta
    rw [predictedProbabilityOfOne]
    linarith

/-- C4: the forward model satisfies p(theta) = p(2 pi - theta), p(0) = 0 and
p(pi) = 1 (exactly, over the reals). -/
theorem predictedProbabilityOfOne_symm_boundary (theta : ℝ) :
    predictedProbabilityOfOne theta = predictedProbabilityOfOne (2 * π - theta) ∧
    predictedProbabilityOfOne 0 = 0 ∧ predictedProbabilityOfOne π = 1 := by
  refine ⟨?_, ?_, ?_⟩
  · rw [predictedProbabilityOfOne, predictedProbabilityOfOne, Real.cos_sub,
      Real.cos_two_pi, Real.sin_two_pi]
    ring
  · rw [predictedProbabilityOfOne, Real.cos_zero]
    norm_num
  · rw [predictedProbabilityOfOne, Real.cos_pi]
    norm_num

/-- C6: estimatePhase(0, 1000) = 0 exactly and estimatePhase(1000, 1000) = pi
exactly. -/
theorem estimatePhase_boundary :
    estimatePhase 0 1000 = Except.ok 0 ∧ estimatePhase 1000 1000 = Except.ok π := by
  constructor
  · have h : ((((0 : ℤ) : ℚ) / ((1000 : ℤ) : ℚ)) * 2 - 1) * (-1) = 1 := by norm_num
    rw [estimatePhase, if_neg (by norm_num), phase, h, acosPy, if_neg (by norm_num)]
    norm_num [Real.arccos_one]
  · have h : ((((1000 : ℤ) : ℚ) / ((1000 : ℤ) : ℚ)) * 2 - 1) * (-1) = -1 := by norm_num
    rw [estimatePhase, if_neg (by norm_num), phase, h, acosPy, if_neg (by norm_num)]
    norm_num [Real.arccos_neg_one]

/-- C8: phaseError returns the absolute difference of its arguments; it is
total (defined for all reals), nonnegative, and symmetric. -/
theorem phaseError_abs_diff (estimated actual : ℝ) :
    phaseError estimated actual = |estimated - actual| ∧
    0 ≤ phaseError estimated actual ∧
    phaseError estimated actual = phaseError actual estimated :=
  ⟨rfl, abs_nonneg _, abs_sub_comm _ _⟩

/-- C9: the estimator is stateless and deterministic: in any sequence of calls,
the result of the i-th call depends only on the i-th input, not on any prior
calls. -/
theorem runCalls_history_independent (calls1 calls2 : List (ℤ × ℤ)) (i : ℕ)
    (h : calls1.get? i = calls2.get? i) :
    (runCalls calls1).get? i = (runCalls calls2).get? i := by
  rw [runCalls, runCalls, List.get?_map, List.get?_map, h]

/-- Witness for C9: two call histories differing in their first call give the
same result for their (equal) second call. -/
theorem runCalls_history_independent_witness :
    ([((0 : ℤ), (1 : ℤ)), ((3 : ℤ), (4 : ℤ))].get? 1
       = [((7 : ℤ), (9 : ℤ)), ((3 : ℤ), (4 : ℤ))].get? 1) ∧
    (runCalls [((0 : ℤ), (1 : ℤ)), ((3 : ℤ), (4 : ℤ))]).get? 1
       = (runCalls [((7 : ℤ), (9 : ℤ)), ((3 : ℤ), (4 : ℤ))]).get? 1 :=
  ⟨rfl, runCalls_history_independent _ _ 1 rfl⟩

/-- C10: an absent outcome key yields empirical probability 0 (no lookup
error), and a run with no observed one-outcomes yields estimated phase 0. -/
theorem probability_missing_key_zero (counts : List (String × Nat)) (shots : Nat) :
    (counts.lookup "0" = none → probability0 counts shots = Except.ok 0) ∧
    (counts.lookup "1" = none →
      probability1 counts shots = Except.ok 0 ∧
      (probability1 counts shots).bind phase = Except.ok 0) := by
  constructor
  · intro h
    rw [probability0, h]
  · intro h
    have h1 : probability1 counts shots = Except.ok 0 := by rw [probability1, h]
    refine ⟨h1, ?_⟩
    rw [h1]
    have h2 : ((0 : ℚ) * 2 - 1) * (-1) = 1 := by norm_num
    show phase 0 = Except.ok 0
    rw [phase, h2, acosPy, if_neg (by norm_num)]
    norm_num [Real.arccos_one]

/-- Witness for C10 at the empty counts dictionary and shots = 1000. -/
theorem probability_missing_key_zero_witness :
    probability0 [] 1000 = Except.ok 0 ∧ probability1 [] 1000 = Except.ok 0 ∧
    (probability1 [] 1000).bind phase = Except.ok 0 :=
  ⟨(probability_missing_key_zero [] 1000).1 rfl,
   (probability_missing_key_zero [] 1000).2 rfl⟩

/- ### Numeric bounds for the worked example (C7) -/

lemma arcsin_small_lower : (0.018 : ℝ) ≤ Real.arcsin 0.018 := by
  have hπ : (3 : ℝ) < π := Real.pi_gt_three
  have hs : Real.sin 0.018 ≤ (0.018 : ℝ) := Real.sin_le (by norm_num)
  have heq : Real.arcsin (Real.sin 0.018) = 0.018 :=
    Real.arcsin_sin (by linarith) (by linarith)
  calc (0.018 : ℝ) = Real.arcsin (Real.sin 0.018) := heq.symm
    _ ≤ Real.arcsin 0.018 := Real.monotone_arcsin hs

lemma arcsin_small_upper : Real.arcsin 0.018 ≤ (0.01801 : ℝ) := by
  have hπ : (3 : ℝ) < π := Real.pi_gt_three
  have hcube := Real.sin_gt_sub_cube (x := 0.01801) (by norm_num) (by norm_num)
  have hs : (0.018 : ℝ) ≤ Real.sin 0.01801 := by nlinarith
  have heq : Real.arcsin (Real.sin 0.01801) = 0.01801 :=
    Real.arcsin_sin (by linarith) (by linarith)
  calc Real.arcsin 0.018 ≤ Real.arcsin (Real.sin 0.01801) := Real.monotone_arcsin hs
    _ = 0.01801 := heq

/-- C7: the worked example: countOne = 509, shots = 1000 gives the estimate
arccos(1 - 1.018) = arccos(-0.018), which is within 1e-4 of 1.5888 and of the
reference printout 1.5887972989366417, and whose error against the true
phase pi/2 is within 1e-4 of 0.0180. -/
theorem estimatePhase_worked_example :
    ∃ θhat, estimatePhase 509 1000 = Except.ok θhat ∧
      θhat = Real.arccos (1 - 1.018) ∧
      |θhat - 1.5888| ≤ 1e-4 ∧
      |θhat - 1.5887972989366417| ≤ 1e-4 ∧
      |phaseError θhat (π / 2) - 0.0180| ≤ 1e-4 := by
  have hq : ((((509 : ℤ) : ℚ) / ((1000 : ℤ) : ℚ)) * 2 - 1) * (-1) = -0.018 := by norm_num
  have hcast : ((-0.018 : ℚ) : ℝ) = -0.018 := by norm_num
  have hok : estimatePhase 509 1000 = Except.ok (Real.arccos (-0.018 : ℝ)) := by
    rw [estimatePhase, if_neg (by norm_num), phase, hq, acosPy, if_neg (by norm_num), hcast]
  have hsplit : Real.arccos (-0.018 : ℝ) = π / 2 + Real.arcsin 0.018 := by
    rw [show (-0.018 : ℝ) = -(0.018 : ℝ) by norm_num, Real.arccos_neg,
      Real.arccos_eq_pi_div_two_sub_arcsin]
    ring
  have hπl : (3.141592 : ℝ) < π := Real.pi_gt_d6
  have hπu : π < (3.141593 : ℝ) := Real.pi_lt_d6
  have hsl := arcsin_small_lower
  have hsu := arcsin_small_upper
  refine ⟨Real.arccos (-0.018 : ℝ), hok, by norm_num, ?_, ?_, ?_⟩
  · rw [hsplit, abs_le]
    constructor <;> linarith
  · rw [hsplit, abs_le]
    constructor <;> linarith
  · rw [hsplit, phaseError]
    have h1 : π / 2 + Real.arcsin 0.018 - π / 2 = Real.arcsin 0.018 := by ring
    have h2 : |Real.arcsin 0.018| = Real.arcsin 0.018 := abs_of_nonneg (by linarith)
    rw [h1, h2, abs_le]
    constructor <;> linarith

/- ### Analytic helpers for the round-trip claim (C5) -/

lemma round_nonneg_le (x : ℝ) (n : ℕ) (h0 : 0 ≤ x) (h1 : x ≤ (n : ℝ)) :
    0 ≤ round x ∧ round x ≤ (n : ℤ) := by
  constructor
  · rw [round_eq]
    exact Int.le_floor.mpr (by push_cast; linarith)
  · rw [round_eq]
    have h2 : ⌊x + 1 / 2⌋ < (n : ℤ) + 1 := Int.floor_lt.mpr (by push_cast; linarith)
    omega

lemma cos_eq_one_sub_two_sin_sq_half (t : ℝ) :
    Real.cos t = 1 - 2 * Real.sin (t / 2) ^ 2 := by
  have h4 := Real.cos_two_mul (t / 2)
  have h5 := Real.sin_sq_add_cos_sq (t / 2)
  have h6 : 2 * (t / 2) = t := by ring
  rw [h6] at h4
  linarith

lemma two_sq_le_pi_sq_one_sub_cos (t : ℝ) (ht0 : 0 ≤ t) (htp : t ≤ π) :
    2 * t ^ 2 ≤ π ^ 2 * (1 - Real.cos t) := by
  have hpi0 : (0 : ℝ) < π := Real.pi_pos
  have hsin := Real.mul_le_sin (x := t / 2) (by linarith) (by linarith)
  have h3 : 2 / π * (t / 2) = t / π := by ring
  rw [h3] at hsin
  have ht2 : t ≤ π * Real.sin (t / 2) := by
    have h7 : π * (t / π) = t := by field_simp
    calc t = π * (t / π) := h7.symm
      _ ≤ π * Real.sin (t / 2) := mul_le_mul_of_nonneg_left hsin hpi0.le
  have hs0 : 0 ≤ Real.sin (t / 2) :=
    Real.sin_nonneg_of_nonneg_of_le_pi (by linarith) (by linarith)
  have hsq : t * t ≤ (π * Real.sin (t / 2)) * (π * Real.sin (t / 2)) :=
    mul_le_mul ht2 ht2 ht0 (by positivity)
  rw [cos_eq_one_sub_two_sin_sq_half t]
  nlinarith [hsq]

lemma sin_le_sin_between (x y : ℝ) (hy0 : 0 ≤ y) (hyx : y ≤ x) (hxp : x ≤ π - y) :
    Real.sin y ≤ Real.sin x := by
  have hpi0 : (0 : ℝ) < π := Real.pi_pos
  by_cases hx : x ≤ π / 2
  · exact Real.sin_le_sin_of_le_of_le_pi_div_two (by linarith) hx hyx
  · push_neg at hx
    rw [← Real.sin_pi_sub x]
    exact Real.sin_le_sin_of_le_of_le_pi_div_two (by linarith) (by linarith) (by linarith)

lemma one_sub_cos_le_sub (a b : ℝ) (hb0 : 0 ≤ b) (hap : a ≤ π) (hba : b ≤ a) :
    1 - Real.cos (a - b) ≤ Real.cos b - Real.cos a := by
  have hpi0 : (0 : ℝ) < π := Real.pi_pos
  have hid := Real.cos_sub_cos a b
  have hcos := cos_eq_one_sub_two_sin_sq_half (a - b)
  have hmono : Real.sin ((a - b) / 2) ≤ Real.sin ((a + b) / 2) :=
    sin_le_sin_between ((a + b) / 2) ((a - b) / 2) (by linarith) (by linarith) (by linarith)
  have hs0 : 0 ≤ Real.sin ((a - b) / 2) :=
    Real.sin_nonneg_of_nonneg_of_le_pi (by linarith) (by linarith)
  nlinarith [mul_le_mul_of_nonneg_right hmono hs0]

lemma sq_sub_le_of_abs_cos_sub (a b e : ℝ) (ha0 : 0 ≤ a) (hap : a ≤ π)
    (hb0 : 0 ≤ b) (hbp : b ≤ π)
    (he : |Real.cos a - Real.cos b| ≤ e) :
    (a - b) ^ 2 ≤ 8 * e := by
  have hpi0 : (0 : ℝ) < π := Real.pi_pos
  have hpi4 : π ≤ 4 := Real.pi_le_four
  have he0 : 0 ≤ e := le_trans (abs_nonneg _) he
  have hpisq : π ^ 2 ≤ 16 := by nlinarith
  have key : ∀ u v : ℝ, 0 ≤ v → u ≤ π → v ≤ u →
      2 * (u - v) ^ 2 ≤ π ^ 2 * (Real.cos v - Real.cos u) := by
    intro u v hv0 hup hvu
    have h1 := one_sub_cos_le_sub u v hv0 hup hvu
    have h2 := two_sq_le_pi_sq_one_sub_cos (u - v) (by linarith) (by linarith)
    nlinarith [mul_le_mul_of_nonneg_left h1 (sq_nonneg π)]
  rcases le_total b a with hba | hab
  · have h := key a b hb0 hap hba
    have habs : Real.cos b - Real.cos a ≤ e := by
      have h4 : Real.cos b - Real.cos a ≤ |Real.cos a - Real.cos b| := by
        rw [abs_sub_comm]
        exact le_abs_self _
      linarith
    have h3 : π ^ 2 * (Real.cos b - Real.cos a) ≤ π ^ 2 * e :=
      mul_le_mul_of_nonneg_left habs (sq_nonneg π)
    have h4 : π ^ 2 * e ≤ 16 * e := mul_le_mul_of_nonneg_right hpisq he0
    linarith
  · have h := key b a ha0 hbp hab
    have habs : Real.cos a - Real.cos b ≤ e := le_trans (le_abs_self _) he
    have h3 : π ^ 2 * (Real.cos a - Real.cos b) ≤ π ^ 2 * e :=
      mul_le_mul_of_nonneg_left habs (sq_nonneg π)
    have h4 : π ^ 2 * e ≤ 16 * e := mul_le_mul_of_nonneg_right hpisq he0
    have h5 : (a - b) ^ 2 = (b - a) ^ 2 := by ring
    linarith [h5 ▸ h]

lemma roundtrip_bound_10000 (p theta : ℝ) (hp0 : 0 ≤ p) (hp1 : p ≤ 1)
    (hcos : 1 - 2 * p = Real.cos theta) (h0 : 0 ≤ theta) (hpi : theta ≤ π) :
    |phaseVal (round (p * (10000 : ℝ))) (10000 : ℤ) - theta| ≤ 0.05 := by
  have hb := round_nonneg_le (p * (10000 : ℝ)) 10000 (by positivity)
    (by push_cast; nlinarith)
  have hbl : (0 : ℝ) ≤ ((round (p * (10000 : ℝ)) : ℤ) : ℝ) := by exact_mod_cast hb.1
  have hbu : ((round (p * (10000 : ℝ)) : ℤ) : ℝ) ≤ 10000 := by exact_mod_cast hb.2
  have hA : phaseVal (round (p * (10000 : ℝ))) (10000 : ℤ)
      = Real.arccos (1 - 2 * (((round (p * (10000 : ℝ)) : ℤ) : ℝ) / (10000 : ℝ))) := by
    rw [phaseVal_eq]
    norm_num
  have hround := abs_sub_round (p * (10000 : ℝ))
  set c : ℝ := ((round (p * (10000 : ℝ)) : ℤ) : ℝ) with hcdef
  have hdiv0 : 0 ≤ c / 10000 := div_nonneg hbl (by norm_num)
  have hdiv1 : c / 10000 ≤ 1 := by
    rw [div_le_one (by norm_num : (0 : ℝ) < 10000)]
    exact hbu
  have hgl : -1 ≤ 1 - 2 * (c / 10000) := by linarith
  have hgu : 1 - 2 * (c / 10000) ≤ 1 := by linarith
  have ht0 : 0 ≤ phaseVal (round (p * (10000 : ℝ))) (10000 : ℤ) := by
    rw [hA]
    exact Real.arccos_nonneg _
  have htp : phaseVal (round (p * (10000 : ℝ))) (10000 : ℤ) ≤ π := by
    rw [hA]
    exact Real.arccos_le_pi _
  have hcosA : Real.cos (phaseVal (round (p * (10000 : ℝ))) (10000 : ℤ))
      = 1 - 2 * (c / 10000) := by
    rw [hA]
    exact Real.cos_arccos hgl hgu
  have hclose : |Real.cos (phaseVal (round (p * (10000 : ℝ))) (10000 : ℤ))
      - Real.cos theta| ≤ 0.0001 := by
    rw [hcosA, ← hcos]
    have h6 : 1 - 2 * (c / 10000) - (1 - 2 * p) = (p * 10000 - c) / 5000 := by ring
    rw [h6, abs_div, abs_of_pos (by norm_num : (0 : ℝ) < 5000),
      div_le_iff₀ (by norm_num : (0 : ℝ) < 5000)]
    linarith
  have hsq := sq_sub_le_of_abs_cos_sub _ theta 0.0001 ht0 htp h0 hpi hclose
  rw [abs_le]
  constructor
  · nlinarith [hsq, sq_nonneg (phaseVal (round (p * (10000 : ℝ))) (10000 : ℤ) - theta + 0.05)]
  · nlinarith [hsq, sq_nonneg (phaseVal (round (p * (10000 : ℝ))) (10000 : ℤ) - theta - 0.05)]

/-- C5: noiseless round-trip: for theta in [0, pi] and countOne = round(p * N)
with p = predictedProbabilityOfOne(theta), every call with N >= 1 returns a
numeric value, those values converge to theta as N grows, and at N = 10000 the
estimate is within 0.05 rad of theta. -/
theorem estimatePhase_roundtrip (theta : ℝ) (h0 : 0 ≤ theta) (hp : theta ≤ π) :
    (∀ N : ℕ, 1 ≤ N →
        estimatePhase (round (predictedProbabilityOfOne theta * (N : ℝ))) (N : ℤ)
          = Except.ok (phaseVal (round (predictedProbabilityOfOne theta * (N : ℝ))) (N : ℤ))) ∧
    Filter.Tendsto
      (fun N : ℕ => phaseVal (round (predictedProbabilityOfOne theta * (N : ℝ))) (N : ℤ))
      Filter.atTop (nhds theta) ∧
    |phaseVal (round (predictedProbabilityOfOne theta * (10000 : ℝ))) (10000 : ℤ)
        - theta| ≤ 0.05 := by
  have hc1 := Real.cos_le_one theta
  have hcn1 := Real.neg_one_le_cos theta
  have hp0 : 0 ≤ predictedProbabilityOfOne theta := by
    rw [predictedProbabilityOfOne]
    linarith
  have hp1 : predictedProbabilityOfOne theta ≤ 1 := by
    rw [predictedProbabilityOfOne]
    linarith
  have hcos : 1 - 2 * predictedProbabilityOfOne theta = Real.cos theta := by
    rw [predictedProbabilityOfOne]
    ring
  have hval : ∀ N : ℕ, phaseVal (round (predictedProbabilityOfOne theta * (N : ℝ))) (N : ℤ)
      = Real.arccos (1 - 2 *
          (((round (predictedProbabilityOfOne theta * (N : ℝ)) : ℤ) : ℝ) / (N : ℝ))) := by
    intro N
    rw [phaseVal_eq]
    norm_num
  have hbounds : ∀ N : ℕ, 0 ≤ round (predictedProbabilityOfOne theta * (N : ℝ)) ∧
      round (predictedProbabilityOfOne theta * (N : ℝ)) ≤ (N : ℤ) := by
    intro N
    have hN0 : (0 : ℝ) ≤ (N : ℝ) := Nat.cast_nonneg N
    refine round_nonneg_le _ N (mul_nonneg hp0 hN0) ?_
    nlinarith
  refine ⟨?_, ?_, ?_⟩
  · intro N hN
    exact estimatePhase_ok _ _ (by exact_mod_cast hN) (hbounds N).1 (hbounds N).2
  · have hg : Filter.Tendsto
        (fun N : ℕ => ((round (predictedProbabilityOfOne theta * (N : ℝ)) : ℤ) : ℝ) / (N : ℝ))
        Filter.atTop (nhds (predictedProbabilityOfOne theta)) := by
      rw [← tendsto_sub_nhds_zero_iff]
      refine squeeze_zero_norm' ?_ tendsto_one_div_atTop_nhds_zero_nat
      filter_upwards [eventually_ge_atTop 1] with N hN
      have hN0 : (0 : ℝ) < (N : ℝ) := by exact_mod_cast hN
      rw [Real.norm_eq_abs]
      have h1 : ((round (predictedProbabilityOfOne theta * (N : ℝ)) : ℤ) : ℝ) / (N : ℝ)
          - predictedProbabilityOfOne theta
          = (((round (predictedProbabilityOfOne theta * (N : ℝ)) : ℤ) : ℝ)
              - predictedProbabilityOfOne theta * (N : ℝ)) / (N : ℝ) := by
        field_simp
        ring
      rw [h1, abs_div, abs_of_pos hN0]
      have h2 := abs_sub_round (predictedProbabilityOfOne theta * (N : ℝ))
      rw [abs_sub_comm] at h2
      have h3 : |((round (predictedProbabilityOfOne theta * (N : ℝ)) : ℤ) : ℝ)
          - predictedProbabilityOfOne theta * (N : ℝ)| ≤ 1 := by linarith
      gcongr
    have hc : Filter.Tendsto
        (fun N : ℕ => 1 - 2 *
          (((round (predictedProbabilityOfOne theta * (N : ℝ)) : ℤ) : ℝ) / (N : ℝ)))
        Filter.atTop (nhds (1 - 2 * predictedProbabilityOfOne theta)) :=
      tendsto_const_nhds.sub (hg.const_mul 2)
    have harc := (Real.continuous_arccos.tendsto
      (1 - 2 * predictedProbabilityOfOne theta)).comp hc
    have heq : Real.arccos (1 - 2 * predictedProbabilityOfOne theta) = theta := by
      rw [hcos]
      exact Real.arccos_cos h0 hp
    rw [heq] at harc
    refine Filter.Tendsto.congr (fun N => ?_) harc
    rw [Function.comp_apply, hval N]
  · exact roundtrip_bound_10000 (predictedProbabilityOfOne theta) theta hp0 hp1 hcos h0 hp

/-- Witness for C5 at theta = 0. -/
theorem estimatePhase_roundtrip_witness :
    (0 : ℝ) ≤ 0 ∧ (0 : ℝ) ≤ π ∧
    ((∀ N : ℕ, 1 ≤ N →
        estimatePhase (round (predictedProbabilityOfOne 0 * (N : ℝ))) (N : ℤ)
          = Except.ok (phaseVal (round (predictedProbabilityOfOne 0 * (N : ℝ))) (N : ℤ))) ∧
    Filter.Tendsto
      (fun N : ℕ => phaseVal (round (predictedProbabilityOfOne 0 * (N : ℝ))) (N : ℤ))
      Filter.atTop (nhds 0) ∧
    |phaseVal (round (predictedProbabilityOfOne 0 * (10000 : ℝ))) (10000 : ℤ)
        - 0| ≤ 0.05) :=
  ⟨le_refl 0, Real.pi_pos.le, estimatePhase_roundtrip 0 (le_refl 0) Real.pi_pos.le⟩
